import Mathlib

set_option linter.unusedVariables false

/-!
Verification of the tool adaptation and invocation pipeline of the
kubernetes-mcp-server repository: the output normalizer
(`PruneForStructuredOutput`), the tool filter (`ShouldIncludeTargetListTool`),
the mutator pipeline (`ComposeMutators`, `WithTargetParameter`,
`WithTargetListTool`) and the elicitation bridge (`sessionElicitor.Elicit`).
Go values of type `interface{}` that hold decoded JSON/YAML are embedded as
the mutual inductive `Value`/`VList`/`VMap` below; Go `error` values are
embedded as `GoErr`, with `errorsIs` embedding `errors.Is`.
-/

/-! ## Result trees (Go `interface{}` holding decoded JSON/YAML) -/

mutual

inductive Value where
  | null : Value
  | bool : Bool → Value
  | num : Int → Value
  | str : String → Value
  | seq : VList → Value
  | map : VMap → Value
deriving DecidableEq

inductive VList where
  | nil : VList
  | cons : Value → VList → VList
deriving DecidableEq

inductive VMap where
  | nil : VMap
  | cons : String → Value → VMap → VMap
deriving DecidableEq

end

/-- First value stored under a key (Go map indexing `m[k]`; keys are unique in Go). -/
def VMap.lookup : VMap → String → Option Value
  | .nil, _ => none
  | .cons k v rest, key => if k = key then some v else rest.lookup key

/-- Go `delete(m, k)`: remove every entry stored under `k`. -/
def VMap.removeKey : VMap → String → VMap
  | .nil, _ => .nil
  | .cons k v rest, key =>
    if k = key then rest.removeKey key else .cons k v (rest.removeKey key)

/-! ## Output normalizer

Modelled from the spec: the implementation of `PruneForStructuredOutput`
(pkg/output/prune.go) is not under src/, only its test suite is.  The
definitions below follow the spec's dispatch rules: a Mapping with a
`metadata` sub-Mapping is treated as a single resource (with an `items`
Sequence recursed into per item); a Sequence is recursed element-wise with
non-Mapping elements passed through; anything else is returned unchanged. -/

/-- Modelled from the spec: the well-known "last applied configuration"
annotation key removed by the pruner. -/
def lacKey : String := "kubectl.kubernetes.io/last-applied-configuration"

/-- Modelled from the spec: prune an `annotations` entry of a resource's
metadata.  Removes exactly the last-applied-configuration key; if that leaves
the mapping empty the entry itself is dropped (`none`).  A non-Mapping
`annotations` value is kept unchanged. -/
def pruneAnnotationsValue : Value → Option Value
  | .map anns =>
    match anns.removeKey lacKey with
    | .nil => none
    | .cons k v rest => some (.map (.cons k v rest))
  | v => some v

/-- Modelled from the spec: prune a resource's `metadata` sub-Mapping: drop
the `managedFields` entry entirely, apply `pruneAnnotationsValue` to an
`annotations` entry, and keep every other entry exactly. -/
def pruneMetadata : VMap → VMap
  | .nil => .nil
  | .cons k v rest =>
    if k = "managedFields" then pruneMetadata rest
    else if k = "annotations" then
      match pruneAnnotationsValue v with
      | none => pruneMetadata rest
      | some v' => .cons k v' (pruneMetadata rest)
    else .cons k v (pruneMetadata rest)

/-- Modelled from the spec: prune the value stored under `metadata` when it
is a Mapping; other values pass through. -/
def pruneMetadataValue : Value → Value
  | .map md => .map (pruneMetadata md)
  | v => v

/-- Modelled from the spec: a Mapping is treated as a single resource exactly
when it contains a `metadata` sub-Mapping. -/
def isResourceMap (m : VMap) : Bool :=
  match m.lookup "metadata" with
  | some (.map _) => true
  | _ => false

mutual

/-- Modelled from the spec: entry-wise transformation of a resource Mapping:
the `metadata` value is pruned, an `items` Sequence is recursed into per item,
every other entry is kept exactly. -/
def pruneEntries : VMap → VMap
  | .nil => .nil
  | .cons k v rest =>
    .cons k
      (if k = "metadata" then pruneMetadataValue v
       else if k = "items" then
         match v with
         | .seq xs => .seq (pruneItemsList xs)
         | v => v
       else v)
      (pruneEntries rest)
termination_by structural m => m

/-- Modelled from the spec: normalize each item of an `items` Sequence as an
independent value. -/
def pruneItemsList : VList → VList
  | .nil => .nil
  | .cons x rest => .cons (pruneValue x) (pruneItemsList rest)
termination_by structural l => l

/-- Modelled from the spec: one element of a top-level Sequence: Mapping
elements are normalized, non-Mapping elements pass through unchanged. -/
def pruneTopElem : Value → Value
  | .map m => if isResourceMap m then .map (pruneEntries m) else .map m
  | v => v
termination_by structural v => v

/-- Modelled from the spec: element-wise recursion over a top-level Sequence. -/
def pruneTopList : VList → VList
  | .nil => .nil
  | .cons x rest => .cons (pruneTopElem x) (pruneTopList rest)
termination_by structural l => l

/-- Modelled from the spec: `PruneForStructuredOutput` (pkg/output/prune.go is
not under src/).  Dispatch on shape: a Mapping containing a `metadata`
sub-Mapping is pruned as a single resource, a Sequence is recursed
element-wise, anything else is returned unchanged. -/
def pruneValue : Value → Value
  | .map m => if isResourceMap m then .map (pruneEntries m) else .map m
  | .seq xs => .seq (pruneTopList xs)
  | v => v
termination_by structural v => v

end

/-- Modelled from the spec: an `items` Sequence of a resource is recursed into
per item; a non-Sequence `items` value passes through. -/
def pruneItemsValue : Value → Value
  | .seq xs => .seq (pruneItemsList xs)
  | v => v

/-- Modelled from the spec: the transformation `pruneEntries` applies to the
value of an entry with key `k`. -/
def pruneEntryValue (k : String) (v : Value) : Value :=
  if k = "metadata" then pruneMetadataValue v
  else if k = "items" then pruneItemsValue v
  else v


/-! ## Go errors

`GoErr` embeds Go `error` values: `base` is an error created by `errors.New`
or a non-wrapping `fmt.Errorf` (the `id` distinguishes distinct error values
that happen to share a message, mirroring Go identity), `wrap` is
`fmt.Errorf` with a `%w` verb. -/

inductive GoErr where
  | base (id : Nat) (msg : String)
  | wrap (inner : GoErr) (msg : String)
deriving DecidableEq

/-- Go `err.Error()`. -/
def GoErr.message : GoErr → String
  | .base _ m => m
  | .wrap _ m => m

/-- Embeds Go `errors.Is`: identity with the target, else unwrap and retry. -/
def errorsIs : GoErr → GoErr → Bool
  | .base i m, target => decide (GoErr.base i m = target)
  | .wrap inner m, target => decide (GoErr.wrap inner m = target) || errorsIs inner target

/-- Embeds Go `strings.Contains`. -/
def strContains (s pat : String) : Bool :=
  (List.range (s.data.length + 1)).any (fun i => pat.data.isPrefixOf (s.data.drop i))

/-! ## Elicitation bridge (src/pkg/mcp, `sessionElicitor.Elicit`) -/

/-- `ErrElicitationNotSupported`, the package-level sentinel created once by
`errors.New("client does not support elicitation")`. -/
def ErrElicitationNotSupported : GoErr := .base 0 "client does not support elicitation"

/-- The descriptive error `fmt.Errorf("no MCP session found in context")`
returned when the invocation context holds no session; a fresh value distinct
from the sentinel. -/
def errNoSession : GoErr := .base 1 "no MCP session found in context"

/-- `api.ElicitResult`: the outcome action together with its content payload. -/
structure GoElicitResult where
  action : String
  content : VMap

/-- Embeds `sessionElicitor.Elicit`: `sessionPresent` is whether the context
value lookup and type assertion for the session succeeded; `sessionResult` is
what `session.Elicit` returned.  A session error whose text reports the
missing elicitation capability is wrapped into the sentinel via
`fmt.Errorf("%w: %s", ErrElicitationNotSupported, err.Error())`; any other
session error propagates unchanged. -/
def sessionElicitorElicit (sessionPresent : Bool)
    (sessionResult : Except GoErr GoElicitResult) : Except GoErr GoElicitResult :=
  if !sessionPresent then .error errNoSession
  else
    match sessionResult with
    | .error err =>
      if strContains err.message "does not support elicitation" then
        .error (.wrap ErrElicitationNotSupported
          (ErrElicitationNotSupported.message ++ ": " ++ err.message))
      else .error err
    | .ok result => .ok ⟨result.action, result.content⟩

/-! ## Descriptor model (api.ServerTool and the slice of jsonschema.Schema it uses) -/

/-- The fields of `jsonschema.Schema` this core reads or writes: `Type`,
`Description` and `Properties` (`nil` maps are `none`). -/
inductive JSchema where
  | mk : String → String → Option (List (String × JSchema)) → JSchema

def JSchema.type : JSchema → String
  | .mk t _ _ => t

def JSchema.description : JSchema → String
  | .mk _ d _ => d

def JSchema.properties : JSchema → Option (List (String × JSchema))
  | .mk _ _ p => p

/-- `api.ToolAnnotations`. -/
structure GoToolAnnotations where
  title : String
  readOnlyHint : Option Bool
  destructiveHint : Option Bool
  idempotentHint : Option Bool
  openWorldHint : Option Bool

/-- `api.Tool`: the declarative part of a descriptor. -/
structure Tool where
  name : String
  description : String
  inputSchema : Option JSchema
  annotations : GoToolAnnotations

/-- `api.ToolCallResult`: in-band content plus an in-band error payload. -/
structure ToolCallResult where
  content : String
  error : Option GoErr

/-- `api.NewToolCallResult`. -/
def NewToolCallResult (content : String) (err : Option GoErr) : ToolCallResult :=
  ⟨content, err⟩

/-- A handler: the tool-call parameters this core passes through are not
inspected by the generated handler beyond the context given to the provider,
so the embedded handler is a function from a trivial parameter. -/
def ToolHandlerFn : Type := Unit → ToolCallResult × Option GoErr

/-- `api.ServerTool`. -/
structure ServerTool where
  tool : Tool
  handler : Option ToolHandlerFn
  clusterAware : Option Bool
  targetListProvider : Option Bool

/-- Modelled from the spec: `api.ServerTool.IsClusterAware` is not under
src/; per the spec the optional flag defaults to true. -/
def IsClusterAware (t : ServerTool) : Bool := t.clusterAware.getD true

/-- Modelled from the spec: `api.ServerTool.IsTargetListProvider` is not
under src/; the optional flag defaults to false. -/
def IsTargetListProvider (t : ServerTool) : Bool := t.targetListProvider.getD false

/-- The slice of `internalk8s.Provider` the generated handler consumes: the
outcome of `GetTargets`. -/
structure Provider where
  getTargets : Except GoErr (List String)

/-! ## Mutator pipeline (src/pkg/mcp, toolmutator.go) -/

def ToolMutator : Type := ServerTool → ServerTool

/-- `ComposeMutators`: applies the mutators in order, threading the tool. -/
def ComposeMutators (mutators : List ToolMutator) : ToolMutator :=
  fun tool => mutators.foldl (fun t m => m t) tool

/-- `TargetsListToolName`. -/
def TargetsListToolName : String := "targets_list"

/-- `createTargetProperty`: a string-typed parameter schema whose description
names the target kind and the default. -/
def createTargetProperty (defaultCluster targetName : String) : JSchema :=
  .mk "string"
    ("Optional parameter selecting which " ++ targetName ++
      " to run the tool in. Defaults to " ++ defaultCluster ++ " if not set")
    none

/-- Go map store `m[k] = v`.  Go maps are key-unique and unordered, so the
store is embedded on the association list as replace-or-append. -/
def mapStore (props : List (String × JSchema)) (k : String) (v : JSchema) :
    List (String × JSchema) :=
  props.filter (fun kv => kv.1 != k) ++ [(k, v)]

/-- `WithTargetParameter`: skip non-cluster-aware tools and single-cluster
topologies; otherwise ensure the schema and its property map exist and store
the target parameter. -/
def WithTargetParameter (defaultCluster targetParameterName : String)
    (isMultiCluster : Bool) : ToolMutator :=
  fun tool =>
    if !(IsClusterAware tool) || !isMultiCluster then tool
    else
      let schema := tool.tool.inputSchema.getD (.mk "object" "" none)
      let props := schema.properties.getD []
      { tool with
        tool := { tool.tool with
          inputSchema := some (.mk schema.type schema.description
            (some (mapStore props targetParameterName
              (createTargetProperty defaultCluster targetParameterName)))) } }

/-- `capitalizeFirst`. -/
def capitalizeFirst (s : String) : String :=
  match s.data with
  | [] => s
  | c :: rest => ⟨c.toUpper :: rest⟩

/-- Go `strings.ToUpper`. -/
def goToUpper (s : String) : String := ⟨s.data.map Char.toUpper⟩

/-- Go `sort.Strings`: lexicographic sort, embedded as insertion sort. -/
def insertSortedStr (x : String) : List String → List String
  | [] => [x]
  | y :: rest => if x ≤ y then x :: y :: rest else y :: insertSortedStr x rest

def sortStrings : List String → List String
  | [] => []
  | x :: rest => insertSortedStr x (sortStrings rest)

/-- The textual report rendered by the generated target-list handler from the
sorted target names. -/
def renderTargetList (sorted : List String) (targetParameterName defaultTarget : String) :
    String :=
  "Available " ++ targetParameterName ++ "s (" ++ toString sorted.length ++
    " total, default: " ++ defaultTarget ++ "):\n\n" ++
  "Format: [*] " ++ goToUpper targetParameterName ++ "_NAME\n" ++
  " (* indicates the default " ++ targetParameterName ++ " used in tools if " ++
    targetParameterName ++ " is not set)\n\n" ++
  capitalizeFirst targetParameterName ++ "s:\n---------\n" ++
  String.join (sorted.map (fun target =>
    (if target = defaultTarget then "*" else " ") ++ " " ++ target ++ "\n")) ++
  "---------\n\n" ++
  "To use a specific " ++ targetParameterName ++ " with any tool, set the '" ++
    targetParameterName ++ "' parameter in the tool call arguments"

/-- `createTargetListHandler`: provider errors become an in-band error payload
with a nil transport error; an empty list becomes a fixed message; otherwise
the report is rendered from a sorted copy of the targets. -/
def createTargetListHandler (p : Provider) (targetParameterName defaultTarget : String) :
    ToolHandlerFn :=
  fun _ =>
    match p.getTargets with
    | .error err =>
      (NewToolCallResult "" (some (.wrap err ("failed to find any targets: " ++ err.message))),
        none)
    | .ok targets =>
      if targets.length = 0 then
        (NewToolCallResult ("No " ++ targetParameterName ++ "s available") none, none)
      else
        (NewToolCallResult (renderTargetList (sortStrings targets) targetParameterName defaultTarget)
          none, none)

/-- `WithTargetListTool`: rename, re-describe and re-title the one tool named
`targets_list` and install the generated handler; pass every other tool
through unchanged. -/
def WithTargetListTool (defaultTarget targetParameterName : String) (p : Provider) :
    ToolMutator :=
  fun tool =>
    if tool.tool.name ≠ TargetsListToolName then tool
    else
      { tool with
        tool := { tool.tool with
          name := targetParameterName ++ "_list",
          description := "List all available " ++ targetParameterName ++
            "s that can be targeted by tools",
          annotations := { tool.tool.annotations with
            title := capitalizeFirst targetParameterName ++ " List" } },
        handler := some (createTargetListHandler p targetParameterName defaultTarget) }

/-! ## Filter pipeline -/

def ToolFilter : Type := ServerTool → Bool

/-- Modelled from the spec: `ShouldIncludeTargetListTool` (pkg/mcp
toolfilter.go is not under src/, only its test suite is).  Non-flagged
descriptors always pass; flagged descriptors are excluded under single-target
topology; under multi-target topology the legacy `configuration_contexts_list`
descriptor surfaces only for the parameter name `context` and the mutated
`<name>_list` descriptor only for other parameter names. -/
def ShouldIncludeTargetListTool (targetParameterName : String) (isMultiCluster : Bool) :
    ToolFilter :=
  fun tool =>
    if !(IsTargetListProvider tool) then true
    else if !isMultiCluster then false
    else if tool.tool.name = "configuration_contexts_list" then
      decide (targetParameterName = "context")
    else if tool.tool.name = targetParameterName ++ "_list" then
      decide (targetParameterName ≠ "context")
    else false

/-! ## Slice-level view of the generated handler (for aliasing)

Go slices are heap objects; to state that the handler sorts a fresh copy and
leaves the provider's slice untouched, the success path of
`createTargetListHandler` is embedded once more with slices as numbered heap
cells: `make` allocates a fresh cell, `copy` and `sort.Strings` write in
place through the reference. -/

structure SliceStore where
  cells : List (List String)

def readSlice (st : SliceStore) (r : Nat) : List String := st.cells.getD r []

/-- Go `copy(dst, src)`: the first `min (len dst) (len src)` elements come
from `src`; the tail of `dst` beyond `len src` is kept. -/
def goCopy (dst src : List String) : List String :=
  src.take dst.length ++ dst.drop src.length

/-- The success path of the generated handler, step by step on the heap: read
the provider's slice at `r`, allocate `sortedTargets := make([]string, len)`,
`copy` into it, `sort.Strings` it in place, render the report from it. -/
def createTargetListHandlerSteps (st : SliceStore) (r : Nat)
    (targetParameterName defaultTarget : String) : SliceStore × String :=
  let targets := readSlice st r
  if targets.length = 0 then (st, "No " ++ targetParameterName ++ "s available")
  else
    let r2 := st.cells.length
    let st1 : SliceStore := ⟨st.cells ++ [List.replicate targets.length ""]⟩
    let st2 : SliceStore := ⟨st1.cells.set r2 (goCopy (readSlice st1 r2) (readSlice st1 r))⟩
    let st3 : SliceStore := ⟨st2.cells.set r2 (sortStrings (readSlice st2 r2))⟩
    (st3, renderTargetList (readSlice st3 r2) targetParameterName defaultTarget)

/-! ## Statements of the claimed properties -/

def VMap.keys : VMap → List String
  | .nil => []
  | .cons k _ rest => k :: rest.keys

/-- The property claimed of `shouldIncludeTargetListTool` at a given target
parameter name: under multi-target topology a flagged descriptor named
`configuration_contexts_list` is included exactly when the parameter name is
`context` and a flagged descriptor named `<name>_list` exactly when it is not,
with at most one of the two included; flagged descriptors are excluded under
single-target topology and non-flagged descriptors always pass. -/
def targetListClaimAt (param : String) : Prop :=
  (∀ t : ServerTool, IsTargetListProvider t = true →
     (t.tool.name = "configuration_contexts_list" →
        (ShouldIncludeTargetListTool param true t = true ↔ param = "context"))
     ∧ (t.tool.name = param ++ "_list" →
        (ShouldIncludeTargetListTool param true t = true ↔ param ≠ "context")))
  ∧ (∀ t u : ServerTool, IsTargetListProvider t = true → IsTargetListProvider u = true →
       t.tool.name = "configuration_contexts_list" → u.tool.name = param ++ "_list" →
       ¬(ShouldIncludeTargetListTool param true t = true
         ∧ ShouldIncludeTargetListTool param true u = true))
  ∧ (∀ t : ServerTool, IsTargetListProvider t = true →
       ShouldIncludeTargetListTool param false t = false)
  ∧ (∀ t : ServerTool, ∀ b : Bool, IsTargetListProvider t = false →
       ShouldIncludeTargetListTool param b t = true)

/-- The property C5 claims of `WithTargetParameter` under multi-target
topology at a given cluster-aware descriptor: the result carries a non-nil
object-typed schema with a non-nil property map containing a single
string-typed parameter with the templated description, and reapplication is
the identity on the result. -/
def targetParamClaimAt (tool : ServerTool) (dflt pname : String) : Prop :=
  ∃ sch, (WithTargetParameter dflt pname true tool).tool.inputSchema = some sch
    ∧ sch.type = "object"
    ∧ ∃ props, sch.properties = some props
      ∧ ∃ ps, props.lookup pname = some ps
        ∧ ps.type = "string"
        ∧ ps.description = "Optional parameter selecting which " ++ pname ++
            " to run the tool in. Defaults to " ++ dflt ++ " if not set"
        ∧ props.countP (fun kv => kv.1 == pname) = 1
        ∧ WithTargetParameter dflt pname true (WithTargetParameter dflt pname true tool)
            = WithTargetParameter dflt pname true tool

/-- A cluster-aware descriptor whose pre-existing input schema is not
object-typed: `WithTargetParameter` keeps its type. -/
def nonObjectSchemaTool : ServerTool :=
  ⟨⟨"test-tool", "A test tool", some (.mk "array" "" none), ⟨"", none, none, none, none⟩⟩,
   none, none, none⟩

/-- The property C3 claims of normalization at a Mapping `m` with a (Go
key-unique) `metadata` sub-Mapping: `managedFields` is removed entirely,
exactly the last-applied-configuration key is removed from an `annotations`
sub-Mapping (dropping the `annotations` key if that leaves it empty), every
other metadata entry is kept, and every field of the value other than
`metadata` is preserved exactly. -/
def pruneResourceClaimAt (m : VMap) : Prop :=
  ∀ md, m.lookup "metadata" = some (.map md) → md.keys.Nodup →
    ∃ m' md', pruneValue (.map m) = .map m'
      ∧ m'.lookup "metadata" = some (.map md')
      ∧ md'.lookup "managedFields" = none
      ∧ (∀ k, k ≠ "managedFields" → k ≠ "annotations" → md'.lookup k = md.lookup k)
      ∧ (∀ anns, md.lookup "annotations" = some (.map anns) →
           md'.lookup "annotations" = pruneAnnotationsValue (.map anns))
      ∧ (∀ k, k ≠ "metadata" → m'.lookup k = m.lookup k)

/-- A resource Mapping with an `items` Sequence whose single item carries a
prunable `managedFields` entry. -/
def itemsDemoMap : VMap :=
  .cons "metadata" (.map .nil)
    (.cons "items" (.seq (.cons (.map (.cons "metadata"
        (.map (.cons "managedFields" (.str "x") .nil)) .nil)) .nil)) .nil)

/-! ## String containment lemmas -/

theorem pruneEntries_cons (k : String) (v : Value) (rest : VMap) :
    pruneEntries (.cons k v rest) = .cons k (pruneEntryValue k v) (pruneEntries rest) := by
  cases v <;> simp [pruneEntries, pruneEntryValue, pruneItemsValue]


theorem strContains_append_right (a b : String) : strContains (a ++ b) b = true := by
  apply List.any_eq_true.mpr
  refine ⟨a.data.length, List.mem_range.mpr ?_, ?_⟩
  · rw [String.data_append]
    simp only [List.length_append]
    omega
  · rw [String.data_append, List.drop_left, List.isPrefixOf_iff_prefix]

theorem strContains_append_left (a b : String) : strContains (a ++ b) a = true := by
  apply List.any_eq_true.mpr
  refine ⟨0, List.mem_range.mpr (by omega), ?_⟩
  rw [String.data_append]
  simp only [List.drop_zero]
  rw [List.isPrefixOf_iff_prefix]
  exact List.prefix_append _ _

theorem strAppend_right_cancel {a b s : String} (h : a ++ s = b ++ s) : a = b := by
  have hd := congrArg String.data h
  rw [String.data_append, String.data_append] at hd
  exact String.ext (List.append_left_injective s.data hd)

/-- C7: `ComposeMutators` applies its constituents left-to-right, threading
each output into the next input, and the empty composition is the identity on
descriptors. -/
theorem composeMutators_threads_left_to_right (m1 m2 : ToolMutator) (d e : ServerTool) :
    ComposeMutators [m1, m2] d = m2 (m1 d) ∧ ComposeMutators [] e = e :=
  ⟨rfl, rfl⟩

/-- C6: `WithTargetParameter` returns the descriptor unchanged when the
descriptor is not cluster-aware or the topology is single-target. -/
theorem withTargetParameter_identity (defaultCluster targetParameterName : String)
    (isMultiCluster : Bool) (tool : ServerTool)
    (h : IsClusterAware tool = false ∨ isMultiCluster = false) :
    WithTargetParameter defaultCluster targetParameterName isMultiCluster tool = tool := by
  unfold WithTargetParameter
  rcases h with h | h <;> simp [h]

theorem withTargetParameter_identity_witness :
    WithTargetParameter "default" "cluster" true
      ⟨⟨"non-cluster-aware-tool", "A test tool", some (.mk "object" "" (some [])),
        ⟨"", none, none, none, none⟩⟩, none, some false, none⟩
      = ⟨⟨"non-cluster-aware-tool", "A test tool", some (.mk "object" "" (some [])),
        ⟨"", none, none, none, none⟩⟩, none, some false, none⟩ :=
  withTargetParameter_identity "default" "cluster" true _ (Or.inl rfl)

/-- C9: normalization is a strict no-op on non-resource shapes: Null, scalars
and Mappings without a `metadata` key come back unchanged, and the function is
total, so it never errors. -/
theorem prune_noop_on_non_resources :
    pruneValue .null = .null
    ∧ (∀ b, pruneValue (.bool b) = .bool b)
    ∧ (∀ n, pruneValue (.num n) = .num n)
    ∧ (∀ s, pruneValue (.str s) = .str s)
    ∧ (∀ m : VMap, m.lookup "metadata" = none → pruneValue (.map m) = .map m) := by
  refine ⟨rfl, fun b => rfl, fun n => rfl, fun s => rfl, fun m h => ?_⟩
  simp [pruneValue, isResourceMap, h]

theorem prune_noop_witness :
    pruneValue (.map (.cons "data" (.str "no-metadata-here") .nil))
      = .map (.cons "data" (.str "no-metadata-here") .nil) :=
  prune_noop_on_non_resources.2.2.2.2 _ rfl

/-- C4: on a provider error the generated target-list handler returns a nil
transport-level error together with a call result whose in-band error text
contains the fixed prefix and the underlying provider error text. -/
theorem targetListHandler_provider_error (e : GoErr) (p d : String) :
    (createTargetListHandler ⟨.error e⟩ p d ()).2 = none
    ∧ ∃ ge, (createTargetListHandler ⟨.error e⟩ p d ()).1.error = some ge
        ∧ strContains ge.message "failed to find any targets" = true
        ∧ strContains ge.message e.message = true := by
  refine ⟨rfl, .wrap e ("failed to find any targets: " ++ e.message), rfl, ?_, ?_⟩
  · show strContains ("failed to find any targets: " ++ e.message)
      "failed to find any targets" = true
    rw [show ("failed to find any targets: " : String)
          = "failed to find any targets" ++ ": " from rfl,
        String.append_assoc]
    exact strContains_append_left _ _
  · exact strContains_append_right "failed to find any targets: " e.message

/-- C1: `elicit` fails with a descriptive error that does not match the
sentinel when no session is in context; when the session's error reports the
missing elicitation capability the returned error wraps the sentinel
(`errors.Is` detects it); and, for session errors that do not already wrap the
package-private sentinel, the sentinel is matched exactly when the session
reported the missing capability. -/
theorem elicit_sentinel_exactness (present : Bool) (sres : Except GoErr GoElicitResult) :
    (present = false →
       sessionElicitorElicit present sres = .error errNoSession
       ∧ errorsIs errNoSession ErrElicitationNotSupported = false)
    ∧ (∀ e : GoErr, present = true → sres = .error e →
         strContains e.message "does not support elicitation" = true →
         ∃ w, sessionElicitorElicit present sres = .error w
           ∧ errorsIs w ErrElicitationNotSupported = true)
    ∧ (∀ e : GoErr, present = true → sres = .error e →
         errorsIs e ErrElicitationNotSupported = false →
         ∀ w, sessionElicitorElicit present sres = .error w →
           (errorsIs w ErrElicitationNotSupported = true ↔
             strContains e.message "does not support elicitation" = true)) := by
  refine ⟨?_, ?_, ?_⟩
  · intro h
    subst h
    exact ⟨rfl, by decide⟩
  · intro e hp hs hc
    subst hp
    subst hs
    refine ⟨.wrap ErrElicitationNotSupported
      (ErrElicitationNotSupported.message ++ ": " ++ e.message), ?_, ?_⟩
    · simp [sessionElicitorElicit, hc]
    · simp [errorsIs]
      exact Or.inr rfl
  · intro e hp hs hni w hw
    subst hp
    subst hs
    by_cases hc : strContains e.message "does not support elicitation" = true
    · simp [sessionElicitorElicit, hc] at hw
      rw [← hw]
      simp [errorsIs, hc]
      exact Or.inr rfl
    · have heq : sessionElicitorElicit true (.error e) = .error e := by
        simp [sessionElicitorElicit, hc]
      rw [heq] at hw
      injection hw with h1
      subst h1
      simp [hni, hc]

theorem elicit_sentinel_witness :
    (sessionElicitorElicit false (.ok ⟨"accept", .nil⟩) = .error errNoSession
      ∧ errorsIs errNoSession ErrElicitationNotSupported = false)
    ∧ (∃ w, sessionElicitorElicit true
          (.error (.base 7 "the client does not support elicitation")) = .error w
        ∧ errorsIs w ErrElicitationNotSupported = true)
    ∧ (errorsIs (GoErr.base 7 "unauthorized") ErrElicitationNotSupported = true ↔
        strContains "unauthorized" "does not support elicitation" = true) :=
  ⟨(elicit_sentinel_exactness false (.ok ⟨"accept", .nil⟩)).1 rfl,
   (elicit_sentinel_exactness true _).2.1 _ rfl rfl (by decide),
   (elicit_sentinel_exactness true (.error (.base 7 "unauthorized"))).2.2 _ rfl rfl
     (by decide) _ rfl⟩

/-! ## C2: the target-list filter -/

/-- C2 counterexample: at the parameter name `configuration_contexts` the
mutated descriptor name `configuration_contexts_list` coincides with the
legacy fixed name, so the two inclusion biconditionals of the claim contradict
each other and the claim fails. -/
theorem targetListClaim_counterexample : ¬ targetListClaimAt "configuration_contexts" := by
  intro h
  have h2 := (h.1 ⟨⟨"configuration_contexts_list", "", none, ⟨"", none, none, none, none⟩⟩,
    none, none, some true⟩ rfl).2 (by decide)
  have h3 := h2.mpr (by decide)
  exact absurd h3 (by decide)

/-- C2 (amended): the claimed inclusion behaviour holds for every target
parameter name except the degenerate `configuration_contexts`, for which the
mutated name collides with the legacy fixed name. -/
theorem targetListFilter_amended (param : String) (hp : param ≠ "configuration_contexts") :
    targetListClaimAt param := by
  have main : ∀ t : ServerTool, IsTargetListProvider t = true →
      (t.tool.name = "configuration_contexts_list" →
         (ShouldIncludeTargetListTool param true t = true ↔ param = "context"))
      ∧ (t.tool.name = param ++ "_list" →
         (ShouldIncludeTargetListTool param true t = true ↔ param ≠ "context")) := by
    intro t ht
    constructor
    · intro hname
      simp [ShouldIncludeTargetListTool, ht, hname, decide_eq_true_iff]
    · intro hname
      have hne : ¬(param ++ "_list" = "configuration_contexts_list") := by
        intro hcontra
        exact hp (strAppend_right_cancel
          (show param ++ "_list" = "configuration_contexts" ++ "_list" from hcontra))
      simp [ShouldIncludeTargetListTool, ht, hname, hne, decide_eq_true_iff]
  refine ⟨main, ?_, ?_, ?_⟩
  · intro t u ht hu hnt hnu hboth
    exact absurd (((main t ht).1 hnt).mp hboth.1) (((main u hu).2 hnu).mp hboth.2)
  · intro t ht
    simp [ShouldIncludeTargetListTool, ht]
  · intro t b ht
    simp [ShouldIncludeTargetListTool, ht]

theorem targetListFilter_witness :
    ShouldIncludeTargetListTool "cluster" true
      ⟨⟨"cluster_list", "", none, ⟨"", none, none, none, none⟩⟩, none, none, some true⟩ = true :=
  (((targetListFilter_amended "cluster" (by decide)).1
      ⟨⟨"cluster_list", "", none, ⟨"", none, none, none, none⟩⟩, none, none, some true⟩
      rfl).2 (by decide)).mpr (by decide)

/-! ## C5: the target parameter mutator under multi-target topology -/

theorem lookup_mapStore (l : List (String × JSchema)) (k : String) (v : JSchema) :
    (mapStore l k v).lookup k = some v := by
  unfold mapStore
  induction l with
  | nil => simp [List.lookup]
  | cons kv rest ih =>
    by_cases h : kv.1 = k
    · simp [List.filter, h, ih]
    · simp only [List.filter]
      have hb : (kv.1 != k) = true := by simp [h]
      rw [hb]
      simp [List.lookup, beq_false_of_ne (Ne.symm h), ih]

theorem countP_filter_out (l : List (String × JSchema)) (k : String) :
    (l.filter (fun kv => kv.1 != k)).countP (fun kv => kv.1 == k) = 0 := by
  induction l with
  | nil => rfl
  | cons kv rest ih =>
    by_cases h : kv.1 = k
    · simp [List.filter, h, ih]
    · simp only [List.filter]
      have hb : (kv.1 != k) = true := by simp [h]
      rw [hb]
      simp [List.countP_cons, h, ih]

theorem countP_mapStore (l : List (String × JSchema)) (k : String) (v : JSchema) :
    (mapStore l k v).countP (fun kv => kv.1 == k) = 1 := by
  unfold mapStore
  rw [List.countP_append]
  rw [countP_filter_out]
  simp [List.countP_cons]

theorem filter_mapStore (l : List (String × JSchema)) (k : String) (v : JSchema) :
    (mapStore l k v).filter (fun kv => kv.1 != k) = l.filter (fun kv => kv.1 != k) := by
  unfold mapStore
  rw [List.filter_append]
  simp [List.filter_filter]

theorem mapStore_idem (l : List (String × JSchema)) (k : String) (v : JSchema) :
    mapStore (mapStore l k v) k v = mapStore l k v := by
  show (mapStore l k v).filter (fun kv => kv.1 != k) ++ [(k, v)] = mapStore l k v
  rw [filter_mapStore]
  rfl

theorem withTargetParameter_idem (dflt pname : String) (tool : ServerTool) :
    WithTargetParameter dflt pname true (WithTargetParameter dflt pname true tool)
      = WithTargetParameter dflt pname true tool := by
  by_cases h : IsClusterAware tool = true
  · obtain ⟨⟨name, desc, schema, anns⟩, hd, ca, tlp⟩ := tool
    have hca : IsClusterAware ⟨⟨name, desc, schema, anns⟩, hd, ca, tlp⟩ = true := h
    cases schema with
    | none =>
      simp [WithTargetParameter, IsClusterAware] at hca ⊢
      simp [hca, mapStore_idem, JSchema.type, JSchema.description, JSchema.properties]
    | some s =>
      obtain ⟨st, sd, sp⟩ := s
      cases sp with
      | none =>
        simp [WithTargetParameter, IsClusterAware] at hca ⊢
        simp [hca, mapStore_idem, JSchema.type, JSchema.description, JSchema.properties]
      | some props =>
        simp [WithTargetParameter, IsClusterAware] at hca ⊢
        simp [hca, mapStore_idem, JSchema.type, JSchema.description, JSchema.properties]
  · have hf : IsClusterAware tool = false := by
      cases hc : IsClusterAware tool
      · rfl
      · exact absurd hc h
    rw [withTargetParameter_identity dflt pname true tool (Or.inl hf),
        withTargetParameter_identity dflt pname true tool (Or.inl hf)]

/-- C5 counterexample: on a cluster-aware descriptor whose existing input
schema has type `array`, the mutated schema still has type `array`, so the
claimed object-typedness of the result fails. -/
theorem targetParamClaim_counterexample :
    IsClusterAware nonObjectSchemaTool = true
    ∧ ¬ targetParamClaimAt nonObjectSchemaTool "default-cluster" "cluster" := by
  refine ⟨rfl, ?_⟩
  intro hcl
  obtain ⟨sch, hsch, htype, _⟩ := hcl
  rw [show (WithTargetParameter "default-cluster" "cluster" true nonObjectSchemaTool).tool.inputSchema
      = some (.mk "array" ""
          (some (mapStore [] "cluster" (createTargetProperty "default-cluster" "cluster"))))
      from rfl] at hsch
  rw [← Option.some.inj hsch] at htype
  exact absurd htype (by decide)

/-- C5 (amended): for every cluster-aware descriptor under multi-target
topology, the result has a non-nil input schema — object-typed when the
descriptor had no schema, otherwise keeping the pre-existing type — with a
non-nil property map containing exactly one string-typed parameter named
`pname` with the templated description, and the mutator is idempotent. -/
theorem targetParam_amended (tool : ServerTool) (dflt pname : String)
    (h : IsClusterAware tool = true) :
    ∃ sch, (WithTargetParameter dflt pname true tool).tool.inputSchema = some sch
      ∧ sch.type = (tool.tool.inputSchema.map JSchema.type).getD "object"
      ∧ ∃ props, sch.properties = some props
        ∧ ∃ ps, props.lookup pname = some ps
          ∧ ps.type = "string"
          ∧ ps.description = "Optional parameter selecting which " ++ pname ++
              " to run the tool in. Defaults to " ++ dflt ++ " if not set"
          ∧ props.countP (fun kv => kv.1 == pname) = 1
          ∧ WithTargetParameter dflt pname true (WithTargetParameter dflt pname true tool)
              = WithTargetParameter dflt pname true tool := by
  have hidem := withTargetParameter_idem dflt pname tool
  obtain ⟨⟨name, desc, schema, anns⟩, hd, ca, tlp⟩ := tool
  have hca : ca.getD true = true := h
  cases schema with
  | none =>
    refine ⟨.mk "object" "" (some (mapStore [] pname (createTargetProperty dflt pname))),
      ?_, rfl, mapStore [] pname (createTargetProperty dflt pname), rfl,
      createTargetProperty dflt pname, lookup_mapStore _ _ _, rfl, rfl,
      countP_mapStore _ _ _, hidem⟩
    simp [WithTargetParameter, IsClusterAware, hca, JSchema.type, JSchema.description,
      JSchema.properties]
  | some sc =>
    obtain ⟨st, sd, sp⟩ := sc
    cases sp with
    | none =>
      refine ⟨.mk st sd (some (mapStore [] pname (createTargetProperty dflt pname))),
        ?_, by simp [JSchema.type], mapStore [] pname (createTargetProperty dflt pname), rfl,
        createTargetProperty dflt pname, lookup_mapStore _ _ _, rfl, rfl,
        countP_mapStore _ _ _, hidem⟩
      simp [WithTargetParameter, IsClusterAware, hca, JSchema.type, JSchema.description,
        JSchema.properties]
    | some props =>
      refine ⟨.mk st sd (some (mapStore props pname (createTargetProperty dflt pname))),
        ?_, by simp [JSchema.type], mapStore props pname (createTargetProperty dflt pname), rfl,
        createTargetProperty dflt pname, lookup_mapStore _ _ _, rfl, rfl,
        countP_mapStore _ _ _, hidem⟩
      simp [WithTargetParameter, IsClusterAware, hca, JSchema.type, JSchema.description,
        JSchema.properties]

theorem targetParam_witness :
    ∃ sch, (WithTargetParameter "default-cluster" "cluster" true
        ⟨⟨"test-tool", "A test tool", some (.mk "object" "" (some [])),
          ⟨"", none, none, none, none⟩⟩, none, none, none⟩).tool.inputSchema = some sch
      ∧ sch.type = ((⟨⟨"test-tool", "A test tool", some (.mk "object" "" (some [])),
          ⟨"", none, none, none, none⟩⟩, none, none, none⟩ : ServerTool).tool.inputSchema.map
            JSchema.type).getD "object"
      ∧ ∃ props, sch.properties = some props
        ∧ ∃ ps, props.lookup "cluster" = some ps
          ∧ ps.type = "string"
          ∧ ps.description = "Optional parameter selecting which " ++ "cluster" ++
              " to run the tool in. Defaults to " ++ "default-cluster" ++ " if not set"
          ∧ props.countP (fun kv => kv.1 == "cluster") = 1
          ∧ WithTargetParameter "default-cluster" "cluster" true
              (WithTargetParameter "default-cluster" "cluster" true
                ⟨⟨"test-tool", "A test tool", some (.mk "object" "" (some [])),
                  ⟨"", none, none, none, none⟩⟩, none, none, none⟩)
              = WithTargetParameter "default-cluster" "cluster" true
                ⟨⟨"test-tool", "A test tool", some (.mk "object" "" (some [])),
                  ⟨"", none, none, none, none⟩⟩, none, none, none⟩ :=
  targetParam_amended
    ⟨⟨"test-tool", "A test tool", some (.mk "object" "" (some [])),
      ⟨"", none, none, none, none⟩⟩, none, none, none⟩
    "default-cluster" "cluster" rfl

/-! ## C3: resource pruning -/

/-- Induction on the spine of a `VMap` (no motive on the stored values). -/
theorem vmapSpineInduction {motive : VMap → Prop} (hnil : motive .nil)
    (hcons : ∀ k v rest, motive rest → motive (.cons k v rest)) : ∀ m, motive m
  | .nil => hnil
  | .cons k v rest => hcons k v rest (vmapSpineInduction hnil hcons rest)

/-- Induction on the spine of a `VList` (no motive on the elements). -/
theorem vlistSpineInduction {motive : VList → Prop} (hnil : motive .nil)
    (hcons : ∀ x rest, motive rest → motive (.cons x rest)) : ∀ l, motive l
  | .nil => hnil
  | .cons x rest => hcons x rest (vlistSpineInduction hnil hcons rest)

theorem lookup_eq_none_of_not_mem_keys (m : VMap) (k : String) (h : k ∉ m.keys) :
    m.lookup k = none := by
  induction m using vmapSpineInduction with
  | hnil => rfl
  | hcons k' v rest ih =>
    simp only [VMap.keys, List.mem_cons, not_or] at h
    simp [VMap.lookup, Ne.symm h.1, ih h.2]

theorem lookup_pruneEntries (m : VMap) (k : String) :
    (pruneEntries m).lookup k = (m.lookup k).map (pruneEntryValue k) := by
  induction m using vmapSpineInduction with
  | hnil => rfl
  | hcons k' v rest ih =>
    rw [pruneEntries_cons]
    by_cases h : k' = k
    · subst h
      simp [VMap.lookup]
    · simp [VMap.lookup, h, ih]

theorem pruneMetadata_lookup_managedFields (md : VMap) :
    (pruneMetadata md).lookup "managedFields" = none := by
  have ham : ("annotations" : String) ≠ "managedFields" := by decide
  induction md using vmapSpineInduction with
  | hnil => rfl
  | hcons k v rest ih =>
    by_cases h1 : k = "managedFields"
    · simp [pruneMetadata, h1, ih]
    · by_cases h2 : k = "annotations"
      · subst h2
        cases hp : pruneAnnotationsValue v with
        | none => simp [pruneMetadata, ham, hp, ih]
        | some v' => simp [pruneMetadata, ham, hp, VMap.lookup, ih]
      · simp [pruneMetadata, h1, h2, VMap.lookup, ih]

theorem pruneMetadata_lookup_other (md : VMap) (k : String)
    (h1 : k ≠ "managedFields") (h2 : k ≠ "annotations") :
    (pruneMetadata md).lookup k = md.lookup k := by
  induction md using vmapSpineInduction with
  | hnil => rfl
  | hcons k' v rest ih =>
    by_cases ha : k' = "managedFields"
    · subst ha
      simp [pruneMetadata, VMap.lookup, Ne.symm h1, ih]
    · by_cases hb : k' = "annotations"
      · subst hb
        cases hp : pruneAnnotationsValue v with
        | none => simp [pruneMetadata, (by decide : ("annotations" : String) ≠ "managedFields"),
            hp, VMap.lookup, Ne.symm h2, ih]
        | some v' => simp [pruneMetadata, (by decide : ("annotations" : String) ≠ "managedFields"),
            hp, VMap.lookup, Ne.symm h2, ih]
      · simp [pruneMetadata, ha, hb, VMap.lookup, ih]

theorem pruneMetadata_lookup_annotations (md : VMap) (hnd : md.keys.Nodup) :
    (pruneMetadata md).lookup "annotations"
      = (md.lookup "annotations").bind pruneAnnotationsValue := by
  induction md using vmapSpineInduction with
  | hnil => rfl
  | hcons k v rest ih =>
    rw [VMap.keys, List.nodup_cons] at hnd
    obtain ⟨hmem, hnd'⟩ := hnd
    by_cases ha : k = "managedFields"
    · subst ha
      simp [pruneMetadata, VMap.lookup, (by decide : ("managedFields" : String) ≠ "annotations"),
        ih hnd']
    · by_cases hb : k = "annotations"
      · subst hb
        cases hp : pruneAnnotationsValue v with
        | none =>
          have hrest : rest.lookup "annotations" = none :=
            lookup_eq_none_of_not_mem_keys rest _ hmem
          have ih' := ih hnd'
          rw [hrest] at ih'
          simp [pruneMetadata, (by decide : ("annotations" : String) ≠ "managedFields"),
            hp, VMap.lookup, ih']
        | some v' =>
          simp [pruneMetadata, (by decide : ("annotations" : String) ≠ "managedFields"),
            hp, VMap.lookup]
      · simp [pruneMetadata, ha, hb, VMap.lookup, ih hnd']

/-- C3 counterexample: normalization also rewrites the `items` entry of a
resource Mapping (each item is normalized), so a field other than `metadata`
is not preserved exactly and the claim as stated fails. -/
theorem pruneClaim_counterexample : ¬ pruneResourceClaimAt itemsDemoMap := by
  intro h
  obtain ⟨m', md', heq, _, _, _, _, hpres⟩ := h .nil rfl (by simp [VMap.keys])
  have hcomp : pruneValue (.map itemsDemoMap)
      = .map (.cons "metadata" (.map .nil)
          (.cons "items" (.seq (.cons (.map (.cons "metadata" (.map .nil) .nil)) .nil)) .nil)) := rfl
  rw [hcomp] at heq
  injection heq with heq'
  subst heq'
  exact absurd (hpres "items" (by decide)) (by decide)

/-- C3 (amended): as claimed, except that the `items` entry of the Mapping is
itself normalized item-wise rather than preserved: every field other than
`metadata` and `items` is preserved exactly. -/
theorem prune_resource_amended (m md : VMap)
    (hmd : m.lookup "metadata" = some (.map md)) (hnd : md.keys.Nodup) :
    ∃ m' md', pruneValue (.map m) = .map m'
      ∧ m'.lookup "metadata" = some (.map md')
      ∧ md'.lookup "managedFields" = none
      ∧ (∀ k, k ≠ "managedFields" → k ≠ "annotations" → md'.lookup k = md.lookup k)
      ∧ (∀ anns, md.lookup "annotations" = some (.map anns) →
           md'.lookup "annotations" = pruneAnnotationsValue (.map anns))
      ∧ (∀ k, k ≠ "metadata" → k ≠ "items" → m'.lookup k = m.lookup k)
      ∧ m'.lookup "items" = (m.lookup "items").map pruneItemsValue := by
  have hres : isResourceMap m = true := by simp [isResourceMap, hmd]
  refine ⟨pruneEntries m, pruneMetadata md, by simp [pruneValue, hres], ?_,
    pruneMetadata_lookup_managedFields md,
    fun k h1 h2 => pruneMetadata_lookup_other md k h1 h2, ?_, ?_, ?_⟩
  · rw [lookup_pruneEntries, hmd]
    simp [pruneEntryValue, pruneMetadataValue]
  · intro anns hanns
    rw [pruneMetadata_lookup_annotations md hnd, hanns]
    rfl
  · intro k h1 h2
    rw [lookup_pruneEntries]
    cases hm : m.lookup k with
    | none => rfl
    | some v => simp [pruneEntryValue, h1, h2]
  · rw [lookup_pruneEntries]
    cases hm : m.lookup "items" with
    | none => rfl
    | some v => simp [pruneEntryValue, (by decide : ("items" : String) ≠ "metadata")]

theorem prune_resource_witness :
    ∃ m' md', pruneValue (.map (.cons "apiVersion" (.str "v1") (.cons "kind" (.str "Pod")
        (.cons "metadata" (.map (.cons "name" (.str "test-pod") (.cons "namespace" (.str "default")
          (.cons "managedFields" (.seq (.cons (.str "field-manager-data") .nil)) .nil)))) .nil))))
        = .map m'
      ∧ m'.lookup "metadata" = some (.map md')
      ∧ md'.lookup "managedFields" = none
      ∧ (∀ k, k ≠ "managedFields" → k ≠ "annotations" →
          md'.lookup k = (VMap.cons "name" (.str "test-pod") (.cons "namespace" (.str "default")
            (.cons "managedFields" (.seq (.cons (.str "field-manager-data") .nil)) .nil))).lookup k)
      ∧ (∀ anns, (VMap.cons "name" (.str "test-pod") (.cons "namespace" (.str "default")
            (.cons "managedFields" (.seq (.cons (.str "field-manager-data") .nil)) .nil))).lookup
              "annotations" = some (.map anns) →
           md'.lookup "annotations" = pruneAnnotationsValue (.map anns))
      ∧ (∀ k, k ≠ "metadata" → k ≠ "items" →
          m'.lookup k = (VMap.cons "apiVersion" (.str "v1") (.cons "kind" (.str "Pod")
            (.cons "metadata" (.map (.cons "name" (.str "test-pod") (.cons "namespace" (.str "default")
              (.cons "managedFields" (.seq (.cons (.str "field-manager-data") .nil)) .nil)))) .nil))).lookup k)
      ∧ m'.lookup "items" = ((VMap.cons "apiVersion" (.str "v1") (.cons "kind" (.str "Pod")
            (.cons "metadata" (.map (.cons "name" (.str "test-pod") (.cons "namespace" (.str "default")
              (.cons "managedFields" (.seq (.cons (.str "field-manager-data") .nil)) .nil)))) .nil))).lookup
            "items").map pruneItemsValue :=
  prune_resource_amended _ _ rfl (by simp [VMap.keys])

/-! ## C8: idempotence of normalization -/

theorem removeKey_removeKey (m : VMap) (k : String) :
    (m.removeKey k).removeKey k = m.removeKey k := by
  induction m using vmapSpineInduction with
  | hnil => rfl
  | hcons k' v rest ih =>
    by_cases h : k' = k
    · simp [VMap.removeKey, h, ih]
    · simp [VMap.removeKey, h, ih]

theorem pruneAnnotationsValue_idem (v v' : Value)
    (h : pruneAnnotationsValue v = some v') : pruneAnnotationsValue v' = some v' := by
  cases v with
  | map anns =>
    cases hrk : anns.removeKey lacKey with
    | nil => simp [pruneAnnotationsValue, hrk] at h
    | cons a b c =>
      simp [pruneAnnotationsValue, hrk] at h
      subst h
      have hr := removeKey_removeKey anns lacKey
      rw [hrk] at hr
      simp [pruneAnnotationsValue, hr]
  | null =>
    simp [pruneAnnotationsValue] at h
    subst h
    rfl
  | bool b =>
    simp [pruneAnnotationsValue] at h
    subst h
    rfl
  | num n =>
    simp [pruneAnnotationsValue] at h
    subst h
    rfl
  | str s =>
    simp [pruneAnnotationsValue] at h
    subst h
    rfl
  | seq xs =>
    simp [pruneAnnotationsValue] at h
    subst h
    rfl

theorem pruneMetadata_idem (md : VMap) :
    pruneMetadata (pruneMetadata md) = pruneMetadata md := by
  induction md using vmapSpineInduction with
  | hnil => rfl
  | hcons k v rest ih =>
    by_cases h1 : k = "managedFields"
    · simp [pruneMetadata, h1, ih]
    · by_cases h2 : k = "annotations"
      · subst h2
        cases hp : pruneAnnotationsValue v with
        | none => simp [pruneMetadata, (by decide : ¬("annotations" : String) = "managedFields"),
            hp, ih]
        | some v' => simp [pruneMetadata, (by decide : ¬("annotations" : String) = "managedFields"),
            hp, ih, pruneAnnotationsValue_idem v v' hp]
      · simp [pruneMetadata, h1, h2, ih]

theorem pruneMetadataValue_idem (v : Value) :
    pruneMetadataValue (pruneMetadataValue v) = pruneMetadataValue v := by
  cases v with
  | map md => simp [pruneMetadataValue, pruneMetadata_idem]
  | null => rfl
  | bool b => rfl
  | num n => rfl
  | str s => rfl
  | seq xs => rfl

theorem isResourceMap_pruneEntries (m : VMap) :
    isResourceMap (pruneEntries m) = isResourceMap m := by
  unfold isResourceMap
  rw [lookup_pruneEntries]
  cases h : m.lookup "metadata" with
  | none => rfl
  | some v => cases v <;> rfl

mutual

theorem pruneEntries_idem : ∀ m : VMap, pruneEntries (pruneEntries m) = pruneEntries m
  | .nil => rfl
  | .cons k v rest => by
    rw [pruneEntries_cons, pruneEntries_cons, pruneEntries_idem rest]
    congr 1
    by_cases h1 : k = "metadata"
    · simp [pruneEntryValue, h1, pruneMetadataValue_idem]
    · by_cases h2 : k = "items"
      · subst h2
        cases v with
        | seq xs => simp [pruneEntryValue, (by decide : ¬("items" : String) = "metadata"),
            pruneItemsValue, pruneItemsList_idem xs]
        | null => rfl
        | bool b => rfl
        | num n => rfl
        | str s => rfl
        | map m => simp [pruneEntryValue, (by decide : ¬("items" : String) = "metadata"),
            pruneItemsValue]
      · simp [pruneEntryValue, h1, h2]

theorem pruneItemsList_idem : ∀ l : VList, pruneItemsList (pruneItemsList l) = pruneItemsList l
  | .nil => rfl
  | .cons x rest => by
    show VList.cons (pruneValue (pruneValue x)) (pruneItemsList (pruneItemsList rest))
      = VList.cons (pruneValue x) (pruneItemsList rest)
    rw [pruneValue_idem x, pruneItemsList_idem rest]

theorem pruneTopElem_idem : ∀ v : Value, pruneTopElem (pruneTopElem v) = pruneTopElem v
  | .map m => by
    by_cases h : isResourceMap m
    · simp [pruneTopElem, h, isResourceMap_pruneEntries, pruneEntries_idem m]
    · simp [pruneTopElem, h]
  | .null => rfl
  | .bool _ => rfl
  | .num _ => rfl
  | .str _ => rfl
  | .seq _ => rfl

theorem pruneTopList_idem : ∀ l : VList, pruneTopList (pruneTopList l) = pruneTopList l
  | .nil => rfl
  | .cons x rest => by
    show VList.cons (pruneTopElem (pruneTopElem x)) (pruneTopList (pruneTopList rest))
      = VList.cons (pruneTopElem x) (pruneTopList rest)
    rw [pruneTopElem_idem x, pruneTopList_idem rest]

theorem pruneValue_idem : ∀ v : Value, pruneValue (pruneValue v) = pruneValue v
  | .map m => by
    by_cases h : isResourceMap m
    · simp [pruneValue, h, isResourceMap_pruneEntries, pruneEntries_idem m]
    · simp [pruneValue, h]
  | .seq xs => by
    show Value.seq (pruneTopList (pruneTopList xs)) = Value.seq (pruneTopList xs)
    rw [pruneTopList_idem xs]
  | .null => rfl
  | .bool _ => rfl
  | .num _ => rfl
  | .str _ => rfl

end

/-- C8: normalization is a pure total function on result trees and is
idempotent: normalizing an already-normalized tree changes nothing. -/
theorem normalize_idempotent (x : Value) : pruneValue (pruneValue x) = pruneValue x :=
  pruneValue_idem x

/-! ## C10: the handler sorts a fresh copy and leaves the provider slice alone -/

/-- C10: on a non-empty target list the generated handler renders its report
from a sorted freshly allocated copy of the provider's slice, and the
provider's slice itself still holds its original elements, in their original
order, after the handler completes. -/
theorem targetListHandler_fresh_copy (st : SliceStore) (r : Nat) (p d : String)
    (hr : r < st.cells.length) (hne : (readSlice st r).length ≠ 0) :
    (createTargetListHandlerSteps st r p d).1.cells.getD r [] = st.cells.getD r []
    ∧ (createTargetListHandlerSteps st r p d).2
      = renderTargetList (sortStrings (readSlice st r)) p d := by
  have hLr : st.cells.length ≠ r := by omega
  have happL : ∀ x : List String, (st.cells ++ [x])[r]? = st.cells[r]? :=
    fun x => List.getElem?_append_left hr
  have happR : ∀ x : List String, (st.cells ++ [x])[st.cells.length]? = some x :=
    fun x => List.getElem?_concat_length _ _
  have hsetne : ∀ (l : List (List String)) (y : List String),
      (l.set st.cells.length y)[r]? = l[r]? :=
    fun l y => List.getElem?_set_ne hLr
  have hsetself : ∀ (l : List (List String)) (y : List String),
      st.cells.length < l.length → (l.set st.cells.length y)[st.cells.length]? = some y := by
    intro l y h
    simp [List.getElem?_set_self, h]
  have hcopy : ∀ ts : List String, goCopy (List.replicate ts.length "") ts = ts := by
    intro ts
    unfold goCopy
    rw [List.length_replicate, List.take_length]
    simp
  simp only [createTargetListHandlerSteps]
  rw [if_neg hne]
  constructor
  · simp only [List.getD, List.get?_eq_getElem?]
    rw [hsetne, hsetne, happL]
  · refine congrArg (fun ts => renderTargetList ts p d) ?_
    simp only [readSlice, List.getD, List.get?_eq_getElem?]
    rw [happR]
    simp only [Option.getD_some]
    rw [happL, hcopy]
    rw [hsetself _ _ (by simp)]
    simp only [Option.getD_some]
    rw [hsetself _ _ (by simp)]
    simp only [Option.getD_some]

theorem targetListHandler_fresh_copy_witness :
    (createTargetListHandlerSteps ⟨[["b", "a"]]⟩ 0 "cluster" "default").1.cells.getD 0 []
        = (⟨[["b", "a"]]⟩ : SliceStore).cells.getD 0 []
    ∧ (createTargetListHandlerSteps ⟨[["b", "a"]]⟩ 0 "cluster" "default").2
        = renderTargetList (sortStrings (readSlice ⟨[["b", "a"]]⟩ 0)) "cluster" "default" :=
  targetListHandler_fresh_copy ⟨[["b", "a"]]⟩ 0 "cluster" "default" (by decide) (by decide)
